import Mathlib

/-!
Verification development for the teafis/scripts-sockets repository.

The development shallowly embeds the packet codec and signal-definition
registry of the repository:

* `efis_packet_format.py` — `SignalList` (schema registry), `SignalDefinition`
  / `AnalogSignalDefinition` (schema records), `GenericPacket` / `AnalogPacket`
  (the 12-byte analog wire format);
* `android_sensor_udp.py` — `Sensor` and `Sensor.construct_packet` (the sensor
  telemetry wire format) and the batch-encoding loop of `main`;
* `xp_data_forwarder.py` — the heading pre-normalization performed by the
  forwarding loop before encoding.

Modelling conventions:

* Python strings are embedded as `List Char` (`str.strip`, `str.split`,
  `str.splitlines`, `str.replace` become structurally recursive functions so
  that everything kernel-evaluates); `String`-taking wrappers convert via
  `String.data`.
* Python `bytes` become `List Nat`, each entry a byte value; `struct.pack`
  format codes `B`, `I`, `i` become `pack_u8`, `pack_u32`, `pack_i32`, which
  return `none` exactly when CPython's `struct.error` range check fires.
* Python floats are embedded as rationals (`ℚ`); `int(x)` on a number is
  truncation toward zero (`truncQ`); `float(s)` is modelled on the
  decimal-literal core of CPython's grammar (sign, digits, optional point).
* Exceptions become `Except` / `Option`; the distinct `ValueError` messages
  raised by schema loading, plus the `IndexError` reachable on empty lines,
  are the constructors of `LoadErr`.
-/

/-- Bytes are modelled as natural numbers; every producer below emits values
below 256. -/
abbrev Byte := Nat

/-- Python `str.strip()` on a character list: drop whitespace from both ends. -/
def pyStrip (l : List Char) : List Char :=
  ((l.dropWhile Char.isWhitespace).reverse.dropWhile Char.isWhitespace).reverse

/-- Helper for `pySplit`: accumulate the current field (reversed) while
scanning for the separator. -/
def pySplitAux (sep : Char) : List Char → List Char → List (List Char)
  | [], acc => [acc.reverse]
  | c :: rest, acc =>
    if c = sep then acc.reverse :: pySplitAux sep rest []
    else pySplitAux sep rest (c :: acc)

/-- Python `str.split(sep)` for a one-character separator: fields between
separators, keeping empty fields (so `"".split(',') == ['']`). -/
def pySplit (sep : Char) (l : List Char) : List (List Char) :=
  pySplitAux sep l []

/-- Helper for `pySplitlines`: like `pySplitAux` for `'\n'`, except that a
trailing newline does not open a final empty line (Python `splitlines`). -/
def pySplitlinesAux : List Char → List Char → List (List Char)
  | [], acc => if acc.isEmpty then [] else [acc.reverse]
  | c :: rest, acc =>
    if c = '\n' then acc.reverse :: pySplitlinesAux rest []
    else pySplitlinesAux rest (c :: acc)

/-- Python `str.splitlines()` restricted to `'\n'` line endings:
`"".splitlines() == []`, and a trailing newline yields no extra empty line. -/
def pySplitlines (l : List Char) : List (List Char) :=
  pySplitlinesAux l []

/-- Python `line.replace(',', '')`: remove every comma. -/
def removeCommas (l : List Char) : List Char :=
  l.filter (fun c => decide (c ≠ ','))

/-- Numeric value of a digit string (most significant first). -/
def digitsVal (l : List Char) : Nat :=
  l.foldl (fun a c => a * 10 + (c.toNat - 48)) 0

/-- Parse a nonempty all-digit string; `none` otherwise. -/
def parseNatDigits (l : List Char) : Option Nat :=
  if l ≠ [] ∧ l.all Char.isDigit then some (digitsVal l) else none

/-- Python `int(s)` on the integer-literal core: surrounding whitespace is
stripped, an optional sign precedes a nonempty digit run; anything else raises
`ValueError`, modelled as `none`. -/
def parseIntPy (l : List Char) : Option Int :=
  match pyStrip l with
  | '-' :: rest => (parseNatDigits rest).map (fun n => -(n : Int))
  | '+' :: rest => (parseNatDigits rest).map (fun n => (n : Int))
  | l' => (parseNatDigits l').map (fun n => (n : Int))

/-- Python `float(s)` on the decimal-literal core (sign, digits, optional
decimal point), returning an exact rational; other forms raise `ValueError`,
modelled as `none`. -/
def parseFloatPy (l : List Char) : Option ℚ :=
  let core : List Char → Option ℚ := fun m =>
    match pySplit '.' m with
    | [ip] => (parseNatDigits ip).map (fun n => (n : ℚ))
    | [ip, fp] =>
      if (ip ++ fp) ≠ [] ∧ (ip ++ fp).all Char.isDigit then
        some ((digitsVal ip : ℚ) + (digitsVal fp : ℚ) / (10 : ℚ) ^ fp.length)
      else none
    | _ => none
  match pyStrip l with
  | '-' :: rest => (core rest).map (fun q => -q)
  | '+' :: rest => core rest
  | l' => core l'

/-- Truncation toward zero of a rational, the behaviour of Python `int(x)`
applied to a number. -/
def truncQ (q : ℚ) : Int :=
  q.num.tdiv q.den

/-- Big-endian byte decomposition of an unsigned 32-bit value
(`struct.pack('!I', n)` payload). -/
def u32be (n : Nat) : List Byte :=
  [n / 16777216 % 256, n / 65536 % 256, n / 256 % 256, n % 256]

/-- Big-endian byte decomposition of a signed 32-bit value, two's complement
(`struct.pack('!i', n)` payload). -/
def i32be (n : Int) : List Byte :=
  u32be ((n % 4294967296).toNat)

/-- Reassemble a big-endian unsigned value from bytes. -/
def decode_u32be (l : List Byte) : Nat :=
  l.foldl (fun a b => a * 256 + b) 0

/-- Decode four big-endian bytes as a two's-complement signed 32-bit value. -/
def decode_i32be (l : List Byte) : Int :=
  let u := decode_u32be l
  if u < 2147483648 then (u : Int) else (u : Int) - 4294967296

/-- CPython `struct.pack('!B', n)`: one byte, raising `struct.error` (here
`none`) outside `0 ≤ n < 256`. -/
def pack_u8 (n : Int) : Option (List Byte) :=
  if 0 ≤ n ∧ n < 256 then some [n.toNat] else none

/-- CPython `struct.pack('!I', n)` for a nonnegative count: four bytes,
`none` at or above `2^32`. -/
def pack_u32 (n : Nat) : Option (List Byte) :=
  if n < 4294967296 then some (u32be n) else none

/-- CPython `struct.pack('!i', n)`: four bytes, `none` outside the signed
32-bit range. -/
def pack_i32 (n : Int) : Option (List Byte) :=
  if -2147483648 ≤ n ∧ n < 2147483648 then some (i32be n) else none

/-- Pack a sequence of signed 32-bit values back to back, failing if any is
out of range (`struct.pack` with a run of `'i'` codes). -/
def pack_i32_list : List Int → Option (List Byte)
  | [] => some []
  | n :: rest =>
    match pack_i32 n, pack_i32_list rest with
    | some b, some bs => some (b ++ bs)
    | _, _ => none

/-- Errors raised by schema loading (`efis_packet_format.SignalList.__init__`
and `SignalDefinition.from_csv_line`). The `ValueError`s raised there are
split by their message; `indexError` is the `IndexError` raised by
`list(line)[0]` on an empty line. -/
inductive LoadErr where
  | indexError
  | badInt
  | badFieldCount
  | badFloat
  | unsupportedType
  | duplicateName
  | duplicateId
  deriving DecidableEq, Repr

/-- `efis_packet_format.AnalogSignalDefinition`: one parsed schema record.
Every record produced by `SignalDefinition.from_csv_line` is of this class,
so the base-class fields are inlined here. -/
structure AnalogSignalDefinition where
  cat_id : Int
  sub_id : Int
  name : List Char
  unit : List Char
  sig_type : List Char
  timeout_msec : Int
  resolution : ℚ
  deriving DecidableEq, Repr

/-- `SignalDefinition.from_csv_line`: split the line on commas, strip each
field, require exactly 7 fields, parse the numeric fields in source order
(category, sub-id, timeout, then resolution), give `semi2deg` its constant
resolution, and reject any signal type other than `fixed`. -/
def from_csv_line (line : List Char) : Except LoadErr AnalogSignalDefinition :=
  match (pySplit ',' line).map pyStrip with
  | [w0, w1, w2, w3, w4, w5, w6] =>
    match parseIntPy w0 with
    | none => .error .badInt
    | some cat_id =>
      match parseIntPy w1 with
      | none => .error .badInt
      | some sub_id =>
        match parseIntPy w5 with
        | none => .error .badInt
        | some timeout_msec =>
          match (if w6 = "semi2deg".data then some ((180 : ℚ) / 2 ^ 31)
                 else parseFloatPy w6) with
          | none => .error .badFloat
          | some resolution =>
            if w4 = "fixed".data then
              .ok ⟨cat_id, sub_id, w2, w3, w4, timeout_msec, resolution⟩
            else .error .unsupportedType
  | _ => .error .badFieldCount

/-- Intermediate state of `SignalList.__init__`'s line loop: the version once
the first non-comment line has been consumed (`first_line` toggles exactly
when `version` is assigned), and the definitions in insertion order (Python
dicts preserve insertion order). -/
structure LoadState where
  version : Option Int
  defs : List AnalogSignalDefinition

/-- One iteration of the `SignalList.__init__` line loop: index the first
character (IndexError on an empty line), skip comments, parse the first
non-comment line as the comma-stripped version integer, and otherwise parse a
record, rejecting duplicate names before insertion. -/
def loadStep (st : LoadState) (line : List Char) : Except LoadErr LoadState :=
  match line with
  | [] => .error .indexError
  | c :: _ =>
    if c = '#' then .ok st
    else
      match st.version with
      | none =>
        match parseIntPy (removeCommas line) with
        | none => .error .badInt
        | some v => .ok ⟨some v, st.defs⟩
      | some _ =>
        match from_csv_line line with
        | .error e => .error e
        | .ok d =>
          if st.defs.any (fun e => decide (e.name = d.name)) then
            .error .duplicateName
          else .ok ⟨st.version, st.defs ++ [d]⟩

/-- Run the `SignalList.__init__` line loop over a list of lines. -/
def loadAux (st : LoadState) : List (List Char) → Except LoadErr LoadState
  | [] => .ok st
  | l :: ls =>
    match loadStep st l with
    | .error e => .error e
    | .ok st' => loadAux st' ls

/-- The post-loop duplicate-id check of `SignalList.__init__`: any two entries
under distinct keys (names) sharing `(cat_id, sub_id)`. -/
def hasDupIds (defs : List AnalogSignalDefinition) : Bool :=
  defs.any (fun s1 => defs.any (fun s2 =>
    decide (s1.name ≠ s2.name ∧ s1.cat_id = s2.cat_id ∧ s1.sub_id = s2.sub_id)))

/-- `efis_packet_format.SignalList` after successful construction: the version
(absent when the input had no non-comment line, as in the source, where
`self.version` is then never assigned) and the definitions keyed by name in
insertion order. -/
structure SignalList where
  version : Option Int
  def_list : List AnalogSignalDefinition
  deriving DecidableEq, Repr

/-- `SignalList.__init__` on an already-split line list: run the line loop,
then the duplicate-id check. -/
def loadLines (lines : List (List Char)) : Except LoadErr SignalList :=
  match loadAux ⟨none, []⟩ lines with
  | .error e => .error e
  | .ok st =>
    if hasDupIds st.defs then .error .duplicateId
    else .ok ⟨st.version, st.defs⟩

/-- `SignalList.__init__` on in-memory text: split into lines, then load. -/
def loadText (s : String) : Except LoadErr SignalList :=
  loadLines (pySplitlines s.data)

/-- `SignalList.get_definition`: name lookup, `None` when absent. -/
def SignalList.get_definition (sl : SignalList) (n : List Char) :
    Option AnalogSignalDefinition :=
  sl.def_list.find? (fun d => decide (d.name = n))

/-- Error raised by `GenericPacket.from_signal_def` when the definition's
signal type does not match the packet class's expected type. -/
inductive EncodeErr where
  | signalKindMismatch
  deriving DecidableEq, Repr

/-- `efis_packet_format.AnalogPacket` (with the `GenericPacket` fields):
a sender device bound to one signal definition. -/
structure AnalogPacket where
  dev_from_id : Int
  cat_id : Int
  sub_id : Int
  signal_def : AnalogSignalDefinition
  deriving DecidableEq, Repr

/-- `GenericPacket.from_signal_def` specialised to `AnalogPacket`, whose
`_expected_type` is `'fixed'`: reject a mismatched signal type, otherwise
copy the definition's category and sub ids. -/
def AnalogPacket.from_signal_def (dev_from_id : Int)
    (signal_def : AnalogSignalDefinition) : Except EncodeErr AnalogPacket :=
  if signal_def.sig_type = "fixed".data then
    .ok ⟨dev_from_id, signal_def.cat_id, signal_def.sub_id, signal_def⟩
  else .error .signalKindMismatch

/-- `GenericPacket._create_network_header`, with the impure
`datetime.utcnow().microsecond` read made an explicit `ts` argument:
`struct.pack('!BIBB', dev_from_id, ts, cat_id, sub_id)`. -/
def AnalogPacket.create_network_header (p : AnalogPacket) (ts : Nat) :
    Option (List Byte) :=
  match pack_u8 p.dev_from_id, pack_u32 ts, pack_u8 p.cat_id, pack_u8 p.sub_id with
  | some b0, some b1, some b2, some b3 => some (b0 ++ b1 ++ b2 ++ b3)
  | _, _, _, _ => none

/-- `AnalogPacket._create_data_bytes`:
`struct.pack('!i', int(data_input / resolution))`; `none` also models the
`ZeroDivisionError` on a zero resolution. -/
def AnalogPacket.create_data_bytes (p : AnalogPacket) (data_input : ℚ) :
    Option (List Byte) :=
  if p.signal_def.resolution = 0 then none
  else pack_i32 (truncQ (data_input / p.signal_def.resolution))

/-- `GenericPacket._calculate_checksum`: a hardcoded zero byte. -/
def AnalogPacket.calculate_checksum (_data : List Byte) : List Byte :=
  [0]

/-- `GenericPacket.create_packet_with_data`: header, then data bytes, then
the checksum of header-plus-data. -/
def AnalogPacket.create_packet_with_data (p : AnalogPacket) (ts : Nat)
    (data_input : ℚ) : Option (List Byte) :=
  match p.create_network_header ts, p.create_data_bytes data_input with
  | some hdr, some dat =>
    some ((hdr ++ dat) ++ AnalogPacket.calculate_checksum (hdr ++ dat))
  | _, _ => none

/-- `android_sensor_udp.Sensor`: id, name, current values, updated flag. -/
structure Sensor where
  sensor_id : Nat
  name : List Char
  vals : List ℚ
  updated : Bool
  deriving DecidableEq, Repr

/-- `Sensor.construct_packet`: clear `updated` first, scale each value by 100
and truncate to int, then `struct.pack('!BBB' + 'i'*len, sensor_id,
1 if self.updated else 0, len(data_vals), *data_vals)` — the flag byte reads
`self.updated` after it was already cleared. Returns the mutated sensor
together with the packet bytes. -/
def Sensor.construct_packet (s : Sensor) : Option (Sensor × List Byte) :=
  match pack_u8 (s.sensor_id : Int),
        pack_u8 (if ({ s with updated := false } : Sensor).updated then 1 else 0),
        pack_u8 ((s.vals.map (fun v => truncQ (v * 100))).length : Int),
        pack_i32_list (s.vals.map (fun v => truncQ (v * 100))) with
  | some b0, some b1, some b2, some bs =>
    some ({ s with updated := false }, b0 ++ b1 ++ b2 ++ bs)
  | _, _, _, _ => none

/-- The per-tick batch encoding of `android_sensor_udp.main`: sensors whose
`updated` flag is set are encoded (which mutates them) and their bytes
concatenated in order; the others are left untouched and contribute nothing. -/
def encodeUpdatedSensors : List Sensor → Option (List Sensor × List Byte)
  | [] => some ([], [])
  | s :: rest =>
    if s.updated then
      match s.construct_packet, encodeUpdatedSensors rest with
      | some (s1, b), some (rest', bs) => some (s1 :: rest', b ++ bs)
      | _, _ => none
    else
      match encodeUpdatedSensors rest with
      | some (rest', bs) => some (s :: rest', bs)
      | none => none

/-- The heading pre-normalization of the `xp_data_forwarder` forwarding loop
for `HeadingTrue` / `HeadingMag`: subtract 360 from values above 180, then
clamp into `[-180, 180]`. -/
def normalizeHeading (d : ℚ) : ℚ :=
  let d1 := if d > 180 then d - 360 else d
  if d1 > 180 then 180
  else if d1 < -180 then -180
  else d1

/-- A line that the loader's comment test lets through: nonempty with a first
character other than `'#'`. -/
def nonCommentLine (l : List Char) : Bool :=
  match l with
  | [] => false
  | c :: _ => decide (c ≠ '#')

/-- The definitions of a load state carry pairwise distinct names (the
invariant the duplicate-name check maintains). -/
def NamesNodup (defs : List AnalogSignalDefinition) : Prop :=
  defs.Pairwise (fun a b => a.name ≠ b.name)

theorem u32be_length (n : Nat) : (u32be n).length = 4 := rfl

theorem i32be_length (n : Int) : (i32be n).length = 4 := rfl

theorem decode_u32be_u32be (m : Nat) (h : m < 4294967296) :
    decode_u32be (u32be m) = m := by
  simp only [u32be, decode_u32be, List.foldl]
  omega

theorem emod_u32_bounds (n : Int) :
    0 ≤ n % 4294967296 ∧ n % 4294967296 < 4294967296 := by omega

theorem decode_i32be_i32be (n : Int) (h1 : -2147483648 ≤ n)
    (h2 : n < 2147483648) : decode_i32be (i32be n) = n := by
  have hb := emod_u32_bounds n
  have hm : ((n % 4294967296).toNat : Int) = n % 4294967296 := by omega
  simp only [i32be, decode_i32be]
  rw [decode_u32be_u32be _ (by omega)]
  split <;> omega

theorem tmod_abs_lt (a : Int) {b : Int} (hb : 0 < b) : |a.tmod b| < b := by
  rcases le_or_lt 0 a with ha | ha
  · rw [abs_of_nonneg (Int.tmod_nonneg b ha)]
    exact Int.tmod_lt_of_pos a hb
  · have h1 := Int.tdiv_add_tmod a b
    have h2 := Int.tdiv_add_tmod (-a) b
    rw [Int.neg_tdiv, mul_neg] at h2
    have h4 : 0 ≤ (-a).tmod b := Int.tmod_nonneg b (by omega)
    have h5 : (-a).tmod b < b := Int.tmod_lt_of_pos (-a) hb
    rw [abs_of_nonpos (by omega)]
    omega

theorem truncQ_sub_lt_one (q : ℚ) : |(truncQ q : ℚ) - q| < 1 := by
  have hdpos : (0 : Int) < (q.den : Int) := by exact_mod_cast q.den_pos
  have hdq : (0 : ℚ) < (q.den : ℚ) := by exact_mod_cast q.den_pos
  have hkey := Int.tdiv_add_tmod q.num (q.den : Int)
  have hcast : ((q.den : Int) : ℚ) * ((q.num.tdiv q.den : Int) : ℚ)
      + ((q.num.tmod q.den : Int) : ℚ) = (q.num : ℚ) := by
    exact_mod_cast congrArg (fun z : Int => (z : ℚ)) hkey
  push_cast at hcast
  have hq : q * (q.den : ℚ) = (q.num : ℚ) := by
    have h0 : ((q.num : ℚ) / (q.den : ℚ)) * (q.den : ℚ) = (q.num : ℚ) :=
      div_mul_cancel₀ _ hdq.ne'
    rw [Rat.num_div_den q] at h0
    exact h0
  have hprod : ((truncQ q : ℚ) - q) * (q.den : ℚ)
      = -((q.num.tmod q.den : Int) : ℚ) := by
    have hTD : ((q.num.tdiv q.den : Int) : ℚ) * (q.den : ℚ)
        = (q.num : ℚ) - ((q.num.tmod q.den : Int) : ℚ) := by linarith [hcast]
    calc ((truncQ q : ℚ) - q) * (q.den : ℚ)
        = ((q.num.tdiv q.den : Int) : ℚ) * (q.den : ℚ) - q * (q.den : ℚ) := by
          rw [truncQ]; ring
      _ = -((q.num.tmod q.den : Int) : ℚ) := by rw [hTD, hq]; ring
  have hmain : (truncQ q : ℚ) - q
      = -(((q.num.tmod q.den : Int) : ℚ) / (q.den : ℚ)) := by
    rw [← neg_div, eq_div_iff hdq.ne']
    exact hprod
  rw [hmain, abs_neg, abs_div, abs_of_pos hdq, div_lt_one hdq]
  have habs : |q.num.tmod (q.den : Int)| < (q.den : Int) :=
    tmod_abs_lt q.num hdpos
  exact_mod_cast habs

theorem truncQ_mul_sub_abs_lt (v r : ℚ) (hr : 0 < r) :
    |(truncQ (v / r) : ℚ) * r - v| < r := by
  have hv : v = (v / r) * r := (div_mul_cancel₀ v hr.ne').symm
  have h1 := truncQ_sub_lt_one (v / r)
  calc |(truncQ (v / r) : ℚ) * r - v|
      = |((truncQ (v / r) : ℚ) - v / r) * r| := by rw [sub_mul, ← hv]
    _ = |(truncQ (v / r) : ℚ) - v / r| * |r| := abs_mul _ _
    _ < 1 * r := by
        rw [abs_of_pos hr]
        exact mul_lt_mul_of_pos_right h1 hr
    _ = r := one_mul r

theorem truncQ_intCast (n : Int) : truncQ (n : ℚ) = n := by
  simp [truncQ, Rat.num_intCast, Rat.den_intCast, Int.tdiv_one]

theorem pack_i32_list_eq (l : List Int)
    (h : ∀ n ∈ l, -2147483648 ≤ n ∧ n < 2147483648) :
    pack_i32_list l = some ((l.map i32be).flatten) := by
  induction l with
  | nil => rfl
  | cons n rest ih =>
    have hn := h n (List.mem_cons_self n rest)
    have hrest := ih (fun m hm => h m (List.mem_cons_of_mem n hm))
    simp only [pack_i32_list, pack_i32, if_pos hn, hrest, List.map_cons,
      List.flatten_cons]

theorem loadAux_append (st : LoadState) (xs ys : List (List Char)) :
    loadAux st (xs ++ ys) =
      match loadAux st xs with
      | .error e => .error e
      | .ok st' => loadAux st' ys := by
  induction xs generalizing st with
  | nil => simp [loadAux]
  | cons l ls ih =>
    simp only [List.cons_append, loadAux]
    cases loadStep st l with
    | error e => rfl
    | ok st' => exact ih st'

theorem loadAux_cons_ok {st : LoadState} {l : List Char}
    {ls : List (List Char)} {st'' : LoadState}
    (h : loadAux st (l :: ls) = .ok st'') :
    ∃ st', loadStep st l = .ok st' ∧ loadAux st' ls = .ok st'' := by
  unfold loadAux at h
  cases hs : loadStep st l with
  | error e => rw [hs] at h; exact absurd h (by simp)
  | ok st' => rw [hs] at h; exact ⟨st', rfl, h⟩

theorem loadStep_version_mono {st : LoadState} {l : List Char}
    {st' : LoadState} {v : Int} (h : loadStep st l = .ok st')
    (hv : st.version = some v) : st'.version = some v := by
  unfold loadStep at h
  split at h
  · exact absurd h (by simp)
  · split at h
    · cases h; exact hv
    · split at h
      · split at h
        · exact absurd h (by simp)
        · cases h; simp_all
      · split at h
        · exact absurd h (by simp)
        · split at h
          · exact absurd h (by simp)
          · cases h; exact hv

theorem loadStep_defs_mono {st : LoadState} {l : List Char}
    {st' : LoadState} (h : loadStep st l = .ok st') :
    ∃ t, st'.defs = st.defs ++ t := by
  unfold loadStep at h
  split at h
  · exact absurd h (by simp)
  · split at h
    · cases h; exact ⟨[], by simp⟩
    · split at h
      · split at h
        · exact absurd h (by simp)
        · cases h; exact ⟨[], by simp⟩
      · split at h
        · exact absurd h (by simp)
        · split at h
          · exact absurd h (by simp)
          · next d _ hdup =>
            cases h
            exact ⟨[d], rfl⟩

theorem loadAux_version_mono {st : LoadState} {ls : List (List Char)}
    {st' : LoadState} {v : Int} (h : loadAux st ls = .ok st')
    (hv : st.version = some v) : st'.version = some v := by
  induction ls generalizing st with
  | nil => unfold loadAux at h; cases h; exact hv
  | cons l rest ih =>
    obtain ⟨st1, hstep, haux⟩ := loadAux_cons_ok h
    exact ih haux (loadStep_version_mono hstep hv)

theorem loadAux_defs_mono {st : LoadState} {ls : List (List Char)}
    {st' : LoadState} (h : loadAux st ls = .ok st') :
    ∃ t, st'.defs = st.defs ++ t := by
  induction ls generalizing st with
  | nil => unfold loadAux at h; cases h; exact ⟨[], by simp⟩
  | cons l rest ih =>
    obtain ⟨st1, hstep, haux⟩ := loadAux_cons_ok h
    obtain ⟨t1, h1⟩ := loadStep_defs_mono hstep
    obtain ⟨t2, h2⟩ := ih haux
    exact ⟨t1 ++ t2, by rw [h2, h1, List.append_assoc]⟩

theorem loadStep_record {st : LoadState} {l : List Char} {v : Int}
    (hv : st.version = some v) (hl : nonCommentLine l = true) :
    loadStep st l =
      match from_csv_line l with
      | .error e => .error e
      | .ok d =>
        if st.defs.any (fun e => decide (e.name = d.name)) then
          .error .duplicateName
        else .ok ⟨st.version, st.defs ++ [d]⟩ := by
  cases l with
  | nil => exact absurd hl (by simp [nonCommentLine])
  | cons c rest =>
    have hc : ¬(c = '#') := by
      simpa [nonCommentLine] using hl
    simp only [loadStep, if_neg hc, hv]

theorem loadStep_first {st : LoadState} {l : List Char}
    (hv : st.version = none) (hl : nonCommentLine l = true) :
    loadStep st l =
      match parseIntPy (removeCommas l) with
      | none => .error .badInt
      | some v => .ok ⟨some v, st.defs⟩ := by
  cases l with
  | nil => exact absurd hl (by simp [nonCommentLine])
  | cons c rest =>
    have hc : ¬(c = '#') := by
      simpa [nonCommentLine] using hl
    simp only [loadStep, if_neg hc, hv]

theorem loadStep_nodup {st : LoadState} {l : List Char} {st' : LoadState}
    (h : loadStep st l = .ok st') (hn : NamesNodup st.defs) :
    NamesNodup st'.defs := by
  unfold loadStep at h
  split at h
  · exact absurd h (by simp)
  · split at h
    · cases h; exact hn
    · split at h
      · split at h
        · exact absurd h (by simp)
        · cases h; exact hn
      · split at h
        · exact absurd h (by simp)
        · split at h
          · exact absurd h (by simp)
          · next d _ hdup =>
            cases h
            unfold NamesNodup
            rw [List.pairwise_append]
            refine ⟨hn, List.pairwise_singleton _ _, ?_⟩
            intro a ha b hb
            have hb' : b = d := by simpa using hb
            subst hb'
            intro heq
            apply hdup
            rw [List.any_eq_true]
            exact ⟨a, ha, by simpa using heq⟩

theorem loadAux_nodup {st : LoadState} {ls : List (List Char)}
    {st' : LoadState} (h : loadAux st ls = .ok st')
    (hn : NamesNodup st.defs) : NamesNodup st'.defs := by
  induction ls generalizing st with
  | nil => unfold loadAux at h; cases h; exact hn
  | cons l rest ih =>
    obtain ⟨st1, hstep, haux⟩ := loadAux_cons_ok h
    exact ih haux (loadStep_nodup hstep hn)

theorem find?_name_of_mem {defs : List AnalogSignalDefinition}
    {d : AnalogSignalDefinition} (hmem : d ∈ defs) (hn : NamesNodup defs) :
    defs.find? (fun e => decide (e.name = d.name)) = some d := by
  induction defs with
  | nil => exact absurd hmem (by simp)
  | cons a rest ih =>
    rcases List.mem_cons.mp hmem with rfl | hmem'
    · simp [List.find?_cons]
    · have ha : a.name ≠ d.name :=
        (List.pairwise_cons.mp hn).1 d hmem'
      have hrest : NamesNodup rest := (List.pairwise_cons.mp hn).2
      have hfa : (decide (a.name = d.name)) = false := by simpa using ha
      simp only [List.find?_cons, hfa]
      exact ih hmem' hrest

/-- C9: for heading-type signals the dispatch caller pre-normalizes the raw
degrees value — above 180 it subtracts 360 and then clamps to `[-180, 180]`
(`normalizeHeading` is that subtract-then-clamp step of the forwarding loop);
the value handed to the codec always lies in `[-180, 180]`. -/
theorem c9_heading_normalized_in_range (d : ℚ) :
    -180 ≤ normalizeHeading d ∧ normalizeHeading d ≤ 180 := by
  simp only [normalizeHeading]
  split_ifs <;> constructor <;> linarith

/-- C9 witness: the theorem applied at a concrete out-of-range heading. -/
theorem c9_heading_normalized_in_range_witness :
    -180 ≤ normalizeHeading 350 ∧ normalizeHeading 350 ≤ 180 :=
  c9_heading_normalized_in_range 350

/-- C7: building an `AnalogPacket` from a definition whose signal kind is not
`fixed` fails with the kind-mismatch error, and from a `fixed` definition it
succeeds, carrying over `cat_id` and `sub_id` unchanged. -/
theorem c7_from_signal_def_kind_check (dev : Int) (sd : AnalogSignalDefinition) :
    (sd.sig_type ≠ "fixed".data →
      AnalogPacket.from_signal_def dev sd = .error .signalKindMismatch) ∧
    (sd.sig_type = "fixed".data →
      AnalogPacket.from_signal_def dev sd =
        .ok ⟨dev, sd.cat_id, sd.sub_id, sd⟩) := by
  constructor
  · intro h
    simp [AnalogPacket.from_signal_def, h]
  · intro h
    simp [AnalogPacket.from_signal_def, h]

/-- C7 witness: both branches at concrete definitions. -/
theorem c7_from_signal_def_kind_check_witness :
    AnalogPacket.from_signal_def 30 ⟨1, 2, "n".data, "u".data, "double".data, 5, 1⟩
      = .error .signalKindMismatch ∧
    AnalogPacket.from_signal_def 30 ⟨1, 2, "n".data, "u".data, "fixed".data, 5, 1⟩
      = .ok ⟨30, 1, 2, ⟨1, 2, "n".data, "u".data, "fixed".data, 5, 1⟩⟩ :=
  ⟨(c7_from_signal_def_kind_check 30 _).1 (by decide),
   (c7_from_signal_def_kind_check 30 _).2 rfl⟩

/-- C6: the registry version comes from the first non-comment line, with all
commas removed and the remainder parsed as an integer; `"1,0,0"` parses to
`100`; a first non-comment line that does not parse after comma removal makes
loading fail. -/
theorem c6_version_parse :
    (∀ ver rest v sl, nonCommentLine ver = true →
      parseIntPy (removeCommas ver) = some v →
      loadLines (ver :: rest) = .ok sl → sl.version = some v) ∧
    loadText "1,0,0" = .ok ⟨some 100, []⟩ ∧
    (∀ ver rest, nonCommentLine ver = true →
      parseIntPy (removeCommas ver) = none →
      loadLines (ver :: rest) = .error .badInt) := by
  refine ⟨?_, rfl, ?_⟩
  · intro ver rest v sl hver hparse hload
    unfold loadLines at hload
    split at hload
    · exact absurd hload (by simp)
    · next st heq =>
      split at hload
      · exact absurd hload (by simp)
      · cases hload
        obtain ⟨st1, hstep1, haux1⟩ := loadAux_cons_ok heq
        rw [loadStep_first rfl hver] at hstep1
        simp only [hparse] at hstep1
        have hst1 : st1 = ⟨some v, []⟩ := by
          injection hstep1 with h
          exact h.symm
        subst hst1
        exact loadAux_version_mono haux1 rfl
  · intro ver rest hver hparse
    have hstep : loadStep ⟨none, []⟩ ver = .error .badInt := by
      rw [loadStep_first rfl hver]
      simp only [hparse]
    simp [loadLines, loadAux, hstep]

/-- C6 witness: the version of a loaded one-line schema, and a failing
non-integer version line, at concrete inputs. -/
theorem c6_version_parse_witness :
    (SignalList.mk (some 7) []).version = some 7 ∧
    loadLines ["x".data] = .error .badInt :=
  ⟨c6_version_parse.1 "7".data [] 7 ⟨some 7, []⟩ (by decide) (by decide) rfl,
   c6_version_parse.2.2 "x".data [] (by decide) (by decide)⟩

theorem construct_packet_clears {s t : Sensor} {b : List Byte}
    (h : s.construct_packet = some (t, b)) : t = { s with updated := false } := by
  unfold Sensor.construct_packet at h
  split at h
  · exact (congrArg Prod.fst (Option.some.inj h)).symm
  · exact absurd h (by simp)

set_option maxRecDepth 8192 in
/-- C1 counterexample: encoding a dirty reading with sensor id 1 and no
values yields the record `[1, 0, 0]` — the flag byte at offset 1 is `0`, not
`1`, because `construct_packet` clears `updated` before packing it. -/
theorem c1_counterexample :
    Sensor.construct_packet ⟨1, "gyro".data, [], true⟩ =
      some (⟨1, "gyro".data, [], false⟩, [1, 0, 0]) ∧
    ([1, 0, 0] : List Byte)[1]? = some 0 ∧
    ¬(([1, 0, 0] : List Byte)[1]? = some 1) := by
  decide

/-- C1 (amended): for every dirty reading, the record produced by
`Sensor.construct_packet` is, big-endian: one u8 `sensor_id`, one u8 flag
byte equal to `0` (the flag is cleared before it is packed), one u8 value
count equal to the number of values, then one signed 32-bit integer per value
equal to `round_toward_zero(raw_value * 100)`. -/
theorem c1_sensor_record_layout (s : Sensor) (_hupd : s.updated = true)
    (hid : s.sensor_id < 256) (hlen : s.vals.length < 256)
    (hvals : ∀ v ∈ s.vals,
      -2147483648 ≤ truncQ (v * 100) ∧ truncQ (v * 100) < 2147483648) :
    Sensor.construct_packet s =
      some ({ s with updated := false },
        s.sensor_id :: 0 :: s.vals.length ::
          ((s.vals.map (fun v => truncQ (v * 100))).map i32be).flatten) := by
  have h0 : pack_u8 (s.sensor_id : Int) = some [s.sensor_id] := by
    unfold pack_u8
    rw [if_pos ⟨Int.natCast_nonneg _, by exact_mod_cast hid⟩]
    simp
  have h1 : pack_u8 0 = some [0] := rfl
  have h2 : pack_u8 (s.vals.length : Int) = some [s.vals.length] := by
    unfold pack_u8
    rw [if_pos ⟨Int.natCast_nonneg _, by exact_mod_cast hlen⟩]
    simp
  have h3 : pack_i32_list (s.vals.map fun v => truncQ (v * 100)) =
      some (((s.vals.map fun v => truncQ (v * 100)).map i32be).flatten) := by
    apply pack_i32_list_eq
    intro n hn
    rw [List.mem_map] at hn
    obtain ⟨v, hv, rfl⟩ := hn
    exact hvals v hv
  have h1' : pack_u8 (if ({ s with updated := false } : Sensor).updated
      then 1 else 0) = some [0] := rfl
  unfold Sensor.construct_packet
  rw [List.length_map, h0, h1', h2, h3]
  rfl

set_option maxRecDepth 8192 in
/-- C1 witness: the amended layout at a concrete dirty reading. -/
theorem c1_sensor_record_layout_witness :
    (⟨5, "acc".data, [], true⟩ : Sensor).updated = true ∧
    Sensor.construct_packet ⟨5, "acc".data, [], true⟩ =
      some (⟨5, "acc".data, [], false⟩, [5, 0, 0]) :=
  ⟨rfl, c1_sensor_record_layout ⟨5, "acc".data, [], true⟩ rfl (by decide)
    (by decide) (by simp)⟩

set_option maxRecDepth 40000 in
theorem encodeUpdatedSensors_nil : encodeUpdatedSensors [] = some ([], []) :=
  rfl

set_option maxRecDepth 40000 in
theorem encodeUpdatedSensors_cons (s : Sensor) (rest : List Sensor) :
    encodeUpdatedSensors (s :: rest) =
      if s.updated then
        match s.construct_packet, encodeUpdatedSensors rest with
        | some (s1, b), some (rest', bs) => some (s1 :: rest', b ++ bs)
        | _, _ => none
      else
        match encodeUpdatedSensors rest with
        | some (rest', bs) => some (s :: rest', bs)
        | none => none :=
  rfl

/-- C8: batch encoding clears the `updated` flag of every included (dirty)
reading; a reading that was not dirty before the call is returned unchanged
and contributes no bytes to the output. -/
theorem c8_batch_clearing {ss ss' : List Sensor} {bytes : List Byte}
    (h : encodeUpdatedSensors ss = some (ss', bytes)) :
    List.Forall₂ (fun s s' =>
      (s.updated = false → s' = s) ∧
      (s.updated = true → s'.updated = false)) ss ss' ∧
    ∃ bss : List (List Byte), bytes = bss.flatten ∧
      List.Forall₂ (fun (s : Sensor) (b : List Byte) =>
        s.updated = false → b = []) ss bss := by
  induction ss generalizing ss' bytes with
  | nil =>
    rw [encodeUpdatedSensors_nil] at h
    injection h with h'
    obtain ⟨h1, h2⟩ := Prod.mk.injEq .. ▸ h'
    subst h1 h2
    exact ⟨List.Forall₂.nil, [], rfl, List.Forall₂.nil⟩
  | cons s rest ih =>
    rw [encodeUpdatedSensors_cons] at h
    by_cases hu : s.updated = true
    · rw [if_pos hu] at h
      split at h
      · next s1 b rest' bs hcp henc =>
        injection h with h'
        obtain ⟨h1, h2⟩ := Prod.mk.injEq .. ▸ h'
        obtain ⟨hP, bss, hbytes, hQ⟩ := ih henc
        subst h1 h2
        refine ⟨List.Forall₂.cons ⟨fun hf => absurd hu (by simp [hf]), ?_⟩ hP,
          b :: bss, by simp [hbytes], List.Forall₂.cons
            (fun hf => absurd hu (by simp [hf])) hQ⟩
        intro _
        rw [construct_packet_clears hcp]
      · exact absurd h (by simp)
    · rw [if_neg hu] at h
      have hu' : s.updated = false := by
        cases hb : s.updated
        · rfl
        · exact absurd hb hu
      split at h
      · next rest' bs henc =>
        injection h with h'
        obtain ⟨h1, h2⟩ := Prod.mk.injEq .. ▸ h'
        obtain ⟨hP, bss, hbytes, hQ⟩ := ih henc
        subst h1 h2
        exact ⟨List.Forall₂.cons ⟨fun _ => rfl, fun ht => absurd ht hu⟩ hP,
          [] :: bss, by simp [hbytes], List.Forall₂.cons (fun _ => rfl) hQ⟩
      · exact absurd h (by simp)

set_option maxRecDepth 40000 in
/-- C8 witness: a batch of one dirty and one clean reading — the dirty one is
cleared and encoded, the clean one is untouched and contributes no bytes. -/
theorem c8_batch_clearing_witness :
    List.Forall₂ (fun (s s' : Sensor) =>
      (s.updated = false → s' = s) ∧
      (s.updated = true → s'.updated = false))
      ([⟨1, "a".data, [], true⟩, ⟨2, "b".data, [], false⟩] : List Sensor)
      ([⟨1, "a".data, [], false⟩, ⟨2, "b".data, [], false⟩] : List Sensor) ∧
    ∃ bss : List (List Byte), [1, 0, 0] = bss.flatten ∧
      List.Forall₂ (fun (s : Sensor) (b : List Byte) =>
        s.updated = false → b = [])
        ([⟨1, "a".data, [], true⟩, ⟨2, "b".data, [], false⟩] : List Sensor) bss :=
  c8_batch_clearing (by decide)

theorem analog_packet_bytes (p : AnalogPacket) (ts : Nat) (v : ℚ)
    (hdev : 0 ≤ p.dev_from_id ∧ p.dev_from_id < 256)
    (hts : ts < 4294967296)
    (hcat : 0 ≤ p.cat_id ∧ p.cat_id < 256)
    (hsub : 0 ≤ p.sub_id ∧ p.sub_id < 256)
    (hres : p.signal_def.resolution ≠ 0)
    (hrange : -2147483648 ≤ truncQ (v / p.signal_def.resolution) ∧
      truncQ (v / p.signal_def.resolution) < 2147483648) :
    p.create_packet_with_data ts v =
      some ((p.dev_from_id.toNat :: (u32be ts ++ [p.cat_id.toNat, p.sub_id.toNat]))
        ++ (i32be (truncQ (v / p.signal_def.resolution)) ++ [0])) := by
  have hh : p.create_network_header ts =
      some ([p.dev_from_id.toNat] ++ u32be ts ++ [p.cat_id.toNat] ++ [p.sub_id.toNat]) := by
    unfold AnalogPacket.create_network_header pack_u8 pack_u32
    rw [if_pos hdev, if_pos hts, if_pos hcat, if_pos hsub]
  have hd : p.create_data_bytes v =
      some (i32be (truncQ (v / p.signal_def.resolution))) := by
    unfold AnalogPacket.create_data_bytes pack_i32
    rw [if_neg hres, if_pos hrange]
  unfold AnalogPacket.create_packet_with_data
  rw [hh, hd]
  rfl

/-- C2: for a `fixed`-kind definition, the analog packet is exactly 12 bytes,
big-endian: u8 device id at offset 0, u32 timestamp at offset 1, u8 category
at offset 5, u8 sub id at offset 6, i32 encoded value at offset 7, and a
checksum byte at offset 11 that is the constant 0. -/
theorem c2_analog_packet_layout (p : AnalogPacket) (ts : Nat) (v : ℚ)
    (_hfix : p.signal_def.sig_type = "fixed".data)
    (hdev : 0 ≤ p.dev_from_id ∧ p.dev_from_id < 256)
    (hts : ts < 4294967296)
    (hcat : 0 ≤ p.cat_id ∧ p.cat_id < 256)
    (hsub : 0 ≤ p.sub_id ∧ p.sub_id < 256)
    (hres : p.signal_def.resolution ≠ 0)
    (hrange : -2147483648 ≤ truncQ (v / p.signal_def.resolution) ∧
      truncQ (v / p.signal_def.resolution) < 2147483648) :
    p.create_packet_with_data ts v =
      some (p.dev_from_id.toNat :: u32be ts ++ [p.cat_id.toNat, p.sub_id.toNat]
        ++ i32be (truncQ (v / p.signal_def.resolution)) ++ [0]) ∧
    (p.dev_from_id.toNat :: u32be ts ++ [p.cat_id.toNat, p.sub_id.toNat]
        ++ i32be (truncQ (v / p.signal_def.resolution)) ++ [0]).length = 12 := by
  have hb := analog_packet_bytes p ts v hdev hts hcat hsub hres hrange
  constructor
  · rw [hb]
    simp [List.append_assoc]
  · simp [u32be, i32be]

/-- C2 witness: a concrete packet with device id 30, category 3, sub id 4,
resolution 1 and value 0. -/
theorem c2_analog_packet_layout_witness :
    (AnalogPacket.mk 30 3 4
        ⟨3, 4, "att_pitch".data, "deg".data, "fixed".data, 1000, 1⟩).create_packet_with_data
        99 0
      = some (30 :: u32be 99 ++ [3, 4] ++ i32be (truncQ ((0 : ℚ) / 1)) ++ [0]) ∧
    ((30 : Byte) :: u32be 99 ++ [3, 4] ++ i32be (truncQ ((0 : ℚ) / 1)) ++ [0]).length = 12 :=
  c2_analog_packet_layout _ 99 0 rfl (by decide) (by decide) (by decide)
    (by decide) (by decide)
    (by
      show -2147483648 ≤ truncQ ((0 : ℚ) / 1) ∧ truncQ ((0 : ℚ) / 1) < 2147483648
      rw [zero_div]
      have h0 : truncQ 0 = 0 := by simpa using truncQ_intCast 0
      rw [h0]
      decide)

/-- C3: decoding bytes 7..10 of the analog packet as a big-endian signed
32-bit integer recovers `round_toward_zero(v / r)`, and the decoded count
times the resolution is within one resolution unit of the original value
(truncation-toward-zero bound). -/
theorem c3_fixed_point_law (p : AnalogPacket) (ts : Nat) (v : ℚ)
    (hdev : 0 ≤ p.dev_from_id ∧ p.dev_from_id < 256)
    (hts : ts < 4294967296)
    (hcat : 0 ≤ p.cat_id ∧ p.cat_id < 256)
    (hsub : 0 ≤ p.sub_id ∧ p.sub_id < 256)
    (hr : 0 < p.signal_def.resolution)
    (hrange : -2147483648 ≤ truncQ (v / p.signal_def.resolution) ∧
      truncQ (v / p.signal_def.resolution) < 2147483648) :
    ∃ pkt, p.create_packet_with_data ts v = some pkt ∧
      decode_i32be ((pkt.drop 7).take 4) = truncQ (v / p.signal_def.resolution) ∧
      |(truncQ (v / p.signal_def.resolution) : ℚ) * p.signal_def.resolution - v| <
        p.signal_def.resolution := by
  have hb := analog_packet_bytes p ts v hdev hts hcat hsub hr.ne' hrange
  refine ⟨_, hb, ?_, truncQ_mul_sub_abs_lt v _ hr⟩
  have h7 : (7 : ℕ) =
      (p.dev_from_id.toNat :: (u32be ts ++ [p.cat_id.toNat, p.sub_id.toNat])).length := by
    simp [u32be]
  rw [h7, List.drop_left]
  have h4 : (4 : ℕ) = (i32be (truncQ (v / p.signal_def.resolution))).length :=
    (i32be_length _).symm
  rw [h4, List.take_left]
  exact decode_i32be_i32be _ hrange.1 hrange.2

/-- C3 witness: the fixed-point law at resolution 1 and value 0. -/
theorem c3_fixed_point_law_witness :
    ∃ pkt,
      (AnalogPacket.mk 30 3 4
          ⟨3, 4, "att_pitch".data, "deg".data, "fixed".data, 1000, 1⟩).create_packet_with_data
          99 0 = some pkt ∧
      decode_i32be ((pkt.drop 7).take 4) = truncQ ((0 : ℚ) / 1) ∧
      |(truncQ ((0 : ℚ) / 1) : ℚ) * 1 - 0| < 1 :=
  c3_fixed_point_law _ 99 0 (by decide) (by decide) (by decide) (by decide)
    (by decide)
    (by
      show -2147483648 ≤ truncQ ((0 : ℚ) / 1) ∧ truncQ ((0 : ℚ) / 1) < 2147483648
      rw [zero_div]
      have h0 : truncQ 0 = 0 := by simpa using truncQ_intCast 0
      rw [h0]
      decide)

/-- C4: loading a well-formed schema whose lines include a record line with
fields `(cat, sub, name, unit, fixed, timeout, res7)` and then looking the
name up returns a definition whose fields equal the parsed source fields,
with resolution exactly `180 / 2^31` for the `semi2deg` keyword and the
parsed decimal value otherwise. -/
theorem c4_schema_roundtrip
    (ver : List Char) (pre post : List (List Char)) (line : List Char)
    (w0 w1 n u w5 w6 : List Char) (ci si ti : Int) (rq : ℚ) (sl : SignalList)
    (hver : nonCommentLine ver = true)
    (hline : nonCommentLine line = true)
    (hsplit : (pySplit ',' line).map pyStrip = [w0, w1, n, u, "fixed".data, w5, w6])
    (hci : parseIntPy w0 = some ci) (hsi : parseIntPy w1 = some si)
    (hti : parseIntPy w5 = some ti)
    (hrq : (if w6 = "semi2deg".data then some ((180 : ℚ) / 2 ^ 31)
            else parseFloatPy w6) = some rq)
    (hload : loadLines (ver :: (pre ++ line :: post)) = .ok sl) :
    sl.get_definition n = some ⟨ci, si, n, u, "fixed".data, ti, rq⟩ := by
  have hcsv : from_csv_line line = .ok ⟨ci, si, n, u, "fixed".data, ti, rq⟩ := by
    unfold from_csv_line
    rw [hsplit]
    simp only [hci, hsi, hti, hrq]
    simp
  unfold loadLines at hload
  split at hload
  · exact absurd hload (by simp)
  · next st heq =>
    split at hload
    · exact absurd hload (by simp)
    · cases hload
      obtain ⟨st1, hstep1, haux1⟩ := loadAux_cons_ok heq
      rw [loadStep_first rfl hver] at hstep1
      obtain ⟨v1, hst1⟩ : ∃ v1, st1 = ⟨some v1, []⟩ := by
        cases hp : parseIntPy (removeCommas ver) with
        | none => rw [hp] at hstep1; exact absurd hstep1 (by simp)
        | some w =>
          rw [hp] at hstep1
          exact ⟨w, by injection hstep1 with h; exact h.symm⟩
      subst hst1
      rw [loadAux_append] at haux1
      split at haux1
      · exact absurd haux1 (by simp)
      · next st2 heq2 =>
        have hv2 : st2.version = some v1 := loadAux_version_mono heq2 rfl
        obtain ⟨st3, hstep3, haux3⟩ := loadAux_cons_ok haux1
        rw [loadStep_record hv2 hline] at hstep3
        simp only [hcsv] at hstep3
        split at hstep3
        · exact absurd hstep3 (by simp)
        · next hdup =>
          have hst3 : st3 = ⟨st2.version,
              st2.defs ++ [⟨ci, si, n, u, "fixed".data, ti, rq⟩]⟩ := by
            injection hstep3 with h
            exact h.symm
          subst hst3
          obtain ⟨t4, ht4⟩ := loadAux_defs_mono haux3
          have hmem : (⟨ci, si, n, u, "fixed".data, ti, rq⟩ :
              AnalogSignalDefinition) ∈ st.defs := by
            rw [ht4]
            simp
          have hnod : NamesNodup st.defs :=
            loadAux_nodup heq (by simp [NamesNodup])
          exact find?_name_of_mem hmem hnod

set_option maxRecDepth 100000 in
/-- C4 witness: a two-line schema with a `semi2deg` record, loaded and looked
up concretely. -/
theorem c4_schema_roundtrip_witness :
    SignalList.get_definition
      ⟨some 100, [⟨3, 4, "att_pitch".data, "deg".data, "fixed".data, 1000,
        (180 : ℚ) / 2 ^ 31⟩]⟩ "att_pitch".data
      = some ⟨3, 4, "att_pitch".data, "deg".data, "fixed".data, 1000,
        (180 : ℚ) / 2 ^ 31⟩ :=
  c4_schema_roundtrip "100".data [] []
    "3,4,att_pitch,deg,fixed,1000,semi2deg".data
    "3".data "4".data "att_pitch".data "deg".data "1000".data "semi2deg".data
    3 4 1000 ((180 : ℚ) / 2 ^ 31)
    ⟨some 100, [⟨3, 4, "att_pitch".data, "deg".data, "fixed".data, 1000,
      (180 : ℚ) / 2 ^ 31⟩]⟩
    (by decide) (by decide) (by decide) (by decide) (by decide) (by decide)
    rfl rfl

/-- C5: loading fails whenever two record lines parse to the same name, and
also whenever two record lines with different names parse to the same
`(cat_id, sub_id)` pair; no registry is produced from such input. -/
theorem c5_duplicate_detection
    (ver : List Char) (pre mid post : List (List Char)) (l1 l2 : List Char)
    (d1 d2 : AnalogSignalDefinition)
    (hver : nonCommentLine ver = true)
    (h1n : nonCommentLine l1 = true) (h2n : nonCommentLine l2 = true)
    (h1 : from_csv_line l1 = .ok d1) (h2 : from_csv_line l2 = .ok d2)
    (hdup : d1.name = d2.name ∨
      (d1.name ≠ d2.name ∧ d1.cat_id = d2.cat_id ∧ d1.sub_id = d2.sub_id)) :
    ¬∃ sl, loadLines (ver :: (pre ++ l1 :: (mid ++ l2 :: post))) = .ok sl := by
  rintro ⟨sl, hload⟩
  unfold loadLines at hload
  split at hload
  · simp at hload
  · next st heq =>
    split at hload
    · simp at hload
    · next hdupids =>
      obtain ⟨st1, hstep1, haux1⟩ := loadAux_cons_ok heq
      rw [loadStep_first rfl hver] at hstep1
      obtain ⟨v1, hst1⟩ : ∃ v1, st1 = ⟨some v1, []⟩ := by
        cases hp : parseIntPy (removeCommas ver) with
        | none => rw [hp] at hstep1; exact absurd hstep1 (by simp)
        | some w =>
          rw [hp] at hstep1
          exact ⟨w, by injection hstep1 with h; exact h.symm⟩
      subst hst1
      rw [loadAux_append] at haux1
      split at haux1
      · simp at haux1
      · next st2 heq2 =>
        have hv2 : st2.version = some v1 := loadAux_version_mono heq2 rfl
        obtain ⟨st3, hstep3, haux3⟩ := loadAux_cons_ok haux1
        rw [loadStep_record hv2 h1n] at hstep3
        simp only [h1] at hstep3
        split at hstep3
        · exact absurd hstep3 (by simp)
        · next hdup1 =>
          have hst3 : st3 = ⟨st2.version, st2.defs ++ [d1]⟩ := by
            injection hstep3 with h
            exact h.symm
          subst hst3
          rw [loadAux_append] at haux3
          split at haux3
          · simp at haux3
          · next st4 heq4 =>
            have hv4 : st4.version = some v1 := loadAux_version_mono heq4 hv2
            have hd1mem4 : d1 ∈ st4.defs := by
              obtain ⟨t, ht⟩ := loadAux_defs_mono heq4
              rw [ht]
              simp
            obtain ⟨st5, hstep5, haux5⟩ := loadAux_cons_ok haux3
            rw [loadStep_record hv4 h2n] at hstep5
            simp only [h2] at hstep5
            rcases hdup with hsame | ⟨hdiff, hcat, hsub⟩
            · have hany : st4.defs.any (fun e => decide (e.name = d2.name)) = true := by
                rw [List.any_eq_true]
                exact ⟨d1, hd1mem4, by simp [hsame]⟩
              rw [if_pos hany] at hstep5
              exact absurd hstep5 (by simp)
            · split at hstep5
              · exact absurd hstep5 (by simp)
              · next hdup2 =>
                have hst5 : st5 = ⟨st4.version, st4.defs ++ [d2]⟩ := by
                  injection hstep5 with h
                  exact h.symm
                subst hst5
                obtain ⟨t6, ht6⟩ := loadAux_defs_mono haux5
                have hd1f : d1 ∈ st.defs := by
                  rw [ht6]
                  simp [hd1mem4]
                have hd2f : d2 ∈ st.defs := by
                  rw [ht6]
                  simp
                apply hdupids
                unfold hasDupIds
                rw [List.any_eq_true]
                refine ⟨d1, hd1f, ?_⟩
                rw [List.any_eq_true]
                exact ⟨d2, hd2f, by simp [hdiff, hcat, hsub]⟩

set_option maxRecDepth 100000 in
/-- C5 witness: a schema repeating the same record line twice never loads. -/
theorem c5_duplicate_detection_witness :
    ¬∃ sl, loadLines ["100".data, "1,2,aa,u,fixed,10,semi2deg".data,
      "1,2,aa,u,fixed,10,semi2deg".data] = .ok sl :=
  c5_duplicate_detection "100".data [] [] []
    "1,2,aa,u,fixed,10,semi2deg".data "1,2,aa,u,fixed,10,semi2deg".data
    ⟨1, 2, "aa".data, "u".data, "fixed".data, 10, (180 : ℚ) / 2 ^ 31⟩
    ⟨1, 2, "aa".data, "u".data, "fixed".data, 10, (180 : ℚ) / 2 ^ 31⟩
    (by decide) (by decide) (by decide) rfl rfl (Or.inl rfl)

theorem loadAux_ok_no_empty {st : LoadState} {ls : List (List Char)}
    {st' : LoadState} (h : loadAux st ls = .ok st') :
    ([] : List Char) ∉ ls := by
  induction ls generalizing st with
  | nil => simp
  | cons l rest ih =>
    obtain ⟨st1, hstep, haux⟩ := loadAux_cons_ok h
    intro hmem
    rcases List.mem_cons.mp hmem with heq | hmem'
    · cases heq
      exact Except.noConfusion hstep
    · exact ih haux hmem'

set_option maxRecDepth 8192 in
/-- C10 counterexample: the text `"x\n\n"` contains an empty line, yet loading
fails with the integer-parse `ValueError` on the malformed version line
`"x"`, not with an `IndexError`. -/
theorem c10_counterexample :
    ([] : List Char) ∈ pySplitlines "x\n\n".data ∧
    loadText "x\n\n" = .error .badInt ∧
    LoadErr.badInt ≠ LoadErr.indexError :=
  ⟨by decide, rfl, by decide⟩

/-- C10 (amended): loading any text containing an empty line never produces a
registry, and whenever every line before the empty line processes without
error, loading fails with the out-of-bounds indexing error (an `IndexError`,
not one of the schema `ValueError`s), because the comment test indexes the
line's first character unconditionally. -/
theorem c10_empty_line_not_total :
    (∀ t : String, ([] : List Char) ∈ pySplitlines t.data →
      ¬∃ sl, loadText t = .ok sl) ∧
    (∀ pre post st, loadAux ⟨none, []⟩ pre = .ok st →
      loadLines (pre ++ ([] : List Char) :: post) = .error .indexError) := by
  constructor
  · rintro t hmem ⟨sl, hload⟩
    unfold loadText loadLines at hload
    split at hload
    · simp at hload
    · next st heq =>
      exact (loadAux_ok_no_empty heq) hmem
  · intro pre post st hpre
    have h1 : loadAux st (([] : List Char) :: post) = .error .indexError := by
      unfold loadAux
      rfl
    unfold loadLines
    rw [loadAux_append, hpre]
    simp only [h1]

/-- C10 witness: both parts at a concrete schema whose version line parses
and whose second line is empty. -/
theorem c10_empty_line_not_total_witness :
    (¬∃ sl, loadText "7\n\n" = .ok sl) ∧
    loadLines (["7".data] ++ ([] : List Char) :: []) = .error .indexError :=
  ⟨c10_empty_line_not_total.1 "7\n\n" (by decide),
   c10_empty_line_not_total.2 ["7".data] [] ⟨some 7, []⟩ rfl⟩
